import Mathlib

/-!
Shallow embedding of `src/garage/torch/policies/stochastic_policy.py`
(class `StochasticPolicy`): the observation-normalization logic of
`get_action` / `get_actions`, the no-grad sampling pipeline around the
model's `forward`, and the detach / host-transfer of results.

Numeric arrays (`numpy.ndarray`) are modelled as a shape plus row-major
data; torch tensors additionally carry a compute device and a
`requires_grad` flag.  Fallible Python operations (indexing, stacking,
`Tensor.numpy()`, the model's `forward`, distribution sampling) return
`Except Err`.  The observation space and the model are external
collaborators and are modelled as function-valued parameters, as the spec
describes them only through their interfaces.
-/

namespace StochasticPolicy

/-- Compute device of a torch tensor: host (`cpu`) or an accelerator. -/
inductive Device where
  | cpu
  | cuda
deriving DecidableEq, Repr

/-- Errors surfaced by the embedded Python operations.  `user n` stands for
an arbitrary exception raised inside the model's `forward` or the
distribution's `sample`. -/
inductive Err where
  | indexError
  | typeError
  | stackError
  | gradError
  | deviceError
  | user (n : Nat)
deriving DecidableEq, Repr

/-- A `numpy.ndarray`: shape plus row-major data.  Plain arrays are always
host-resident and never attached to a differentiation graph. -/
structure Arr where
  shape : List Nat
  data : List Int
deriving DecidableEq, Repr

/-- A `torch.Tensor`: shape and data plus the compute device it lives on and
whether it is attached to a differentiation graph (`requires_grad`). -/
structure Tens where
  shape : List Nat
  data : List Int
  device : Device
  requiresGrad : Bool
deriving DecidableEq, Repr

/-- A Python value as far as the policy code can observe it: a raw
(structured, non-numeric) observation, a numpy array, a torch tensor, or a
plain list of such values. -/
inductive PyVal where
  | raw (r : Int)
  | arr (a : Arr)
  | tens (t : Tens)
  | list (xs : List PyVal)

mutual

/-- Decidable equality on `PyVal`, by structural recursion. -/
def PyVal.decEq : (x y : PyVal) → Decidable (x = y)
  | .raw a, .raw b =>
    if h : a = b then .isTrue (by rw [h])
    else .isFalse (fun hc => h (PyVal.raw.inj hc))
  | .raw _, .arr _ => .isFalse (fun hc => PyVal.noConfusion hc)
  | .raw _, .tens _ => .isFalse (fun hc => PyVal.noConfusion hc)
  | .raw _, .list _ => .isFalse (fun hc => PyVal.noConfusion hc)
  | .arr _, .raw _ => .isFalse (fun hc => PyVal.noConfusion hc)
  | .arr a, .arr b =>
    if h : a = b then .isTrue (by rw [h])
    else .isFalse (fun hc => h (PyVal.arr.inj hc))
  | .arr _, .tens _ => .isFalse (fun hc => PyVal.noConfusion hc)
  | .arr _, .list _ => .isFalse (fun hc => PyVal.noConfusion hc)
  | .tens _, .raw _ => .isFalse (fun hc => PyVal.noConfusion hc)
  | .tens _, .arr _ => .isFalse (fun hc => PyVal.noConfusion hc)
  | .tens a, .tens b =>
    if h : a = b then .isTrue (by rw [h])
    else .isFalse (fun hc => h (PyVal.tens.inj hc))
  | .tens _, .list _ => .isFalse (fun hc => PyVal.noConfusion hc)
  | .list _, .raw _ => .isFalse (fun hc => PyVal.noConfusion hc)
  | .list _, .arr _ => .isFalse (fun hc => PyVal.noConfusion hc)
  | .list _, .tens _ => .isFalse (fun hc => PyVal.noConfusion hc)
  | .list xs, .list ys =>
    match PyVal.decEqList xs ys with
    | .isTrue h => .isTrue (by rw [h])
    | .isFalse h => .isFalse (fun hc => h (PyVal.list.inj hc))

/-- Decidable equality on lists of `PyVal`. -/
def PyVal.decEqList : (xs ys : List PyVal) → Decidable (xs = ys)
  | [], [] => .isTrue rfl
  | [], _ :: _ => .isFalse (fun hc => List.noConfusion hc)
  | _ :: _, [] => .isFalse (fun hc => List.noConfusion hc)
  | x :: xs, y :: ys =>
    match PyVal.decEq x y with
    | .isFalse h => .isFalse (fun hc => h (List.cons.inj hc).1)
    | .isTrue h1 =>
      match PyVal.decEqList xs ys with
      | .isTrue h2 => .isTrue (by rw [h1, h2])
      | .isFalse h2 => .isFalse (fun hc => h2 (List.cons.inj hc).2)

end

instance : DecidableEq PyVal := PyVal.decEq

instance {ε α : Type} [DecidableEq ε] [DecidableEq α] : DecidableEq (Except ε α) :=
  fun x y =>
    match x, y with
    | .ok a, .ok b =>
      if h : a = b then .isTrue (by rw [h])
      else .isFalse (by intro hc; injection hc; contradiction)
    | .error a, .error b =>
      if h : a = b then .isTrue (by rw [h])
      else .isFalse (by intro hc; injection hc; contradiction)
    | .ok _, .error _ => .isFalse (by intro hc; cases hc)
    | .error _, .ok _ => .isFalse (by intro hc; cases hc)

/-- Test `isinstance(v, np.ndarray)`.  A numpy scalar (the result of
indexing a rank-1 array) is not an `ndarray` and is represented as `raw`. -/
def isNp : PyVal → Bool
  | .arr _ => true
  | _ => false

/-- Test `isinstance(v, torch.Tensor)`. -/
def isTens : PyVal → Bool
  | .tens _ => true
  | _ => false

/-- Python `v[0]`.  Indexing an empty list or an array/tensor with leading
dimension 0 raises `IndexError`; indexing a rank-1 numpy array yields a
numpy scalar (modelled as `raw`), while indexing a rank-1 torch tensor
yields a 0-dimensional tensor. -/
def pyIndex0 : PyVal → Except Err PyVal
  | .raw _ => .error .typeError
  | .list [] => .error .indexError
  | .list (x :: _) => .ok x
  | .arr a =>
    match a.shape with
    | [] => .error .indexError
    | h :: t =>
      if h = 0 then .error .indexError
      else if t = [] then .ok (.raw (a.data.headD 0))
      else .ok (.arr ⟨t, a.data.take t.prod⟩)
  | .tens t =>
    match t.shape with
    | [] => .error .indexError
    | h :: r =>
      if h = 0 then .error .indexError
      else .ok (.tens ⟨r, t.data.take r.prod, t.device, t.requiresGrad⟩)

/-- `np.stack(xs)`: requires a nonempty list of arrays of identical shape;
the result gains a leading axis of length `xs.length`. -/
def npStack (xs : List PyVal) : Except Err Arr :=
  match xs with
  | [] => .error .stackError
  | .arr a :: rest =>
    if rest.all (fun y =>
        match y with
        | .arr b => b.shape == a.shape
        | _ => false) then
      .ok ⟨xs.length :: a.shape,
           (xs.map (fun y => match y with | .arr b => b.data | _ => [])).flatten⟩
    else .error .stackError
  | _ => .error .stackError

/-- `torch.stack(xs)`: requires a nonempty list of tensors of identical
shape on an identical device; `requires_grad` of the result is the
disjunction of the inputs'. -/
def torchStack (xs : List PyVal) : Except Err Tens :=
  match xs with
  | [] => .error .stackError
  | .tens t :: rest =>
    if rest.all (fun y =>
        match y with
        | .tens u => u.shape == t.shape && u.device == t.device
        | _ => false) then
      .ok ⟨xs.length :: t.shape,
           (xs.map (fun y => match y with | .tens u => u.data | _ => [])).flatten,
           t.device,
           xs.any (fun y => match y with | .tens u => u.requiresGrad | _ => false)⟩
    else .error .stackError
  | _ => .error .stackError

/-- `t.cpu()`: transfer to host memory. -/
def Tens.cpu (t : Tens) : Tens := { t with device := .cpu }

/-- `t.detach()`: drop the differentiation graph. -/
def Tens.detach (t : Tens) : Tens := { t with requiresGrad := false }

/-- `t.numpy()`: convert to a plain numpy array.  Raises if the tensor still
requires grad or still lives on a non-host device. -/
def Tens.numpy (t : Tens) : Except Err Arr :=
  if t.requiresGrad then .error .gradError
  else if t.device ≠ Device.cpu then .error .deviceError
  else .ok ⟨t.shape, t.data⟩

/-- `t.unsqueeze(0)`: add a leading batch axis of length 1. -/
def Tens.unsqueeze0 (t : Tens) : Tens :=
  ⟨1 :: t.shape, t.data, t.device, t.requiresGrad⟩

/-- `torch.flatten(t)`: flatten all dimensions into one. -/
def torchFlattenAll (t : Tens) : Tens :=
  ⟨[t.shape.prod], t.data, t.device, t.requiresGrad⟩

/-- `torch.flatten(t, start_dim=1)`: keep the batch axis, flatten the rest.
Only reached on tensors of rank at least 1 in the embedded code. -/
def torchFlattenFrom1 (t : Tens) : Tens :=
  match t.shape with
  | [] => t
  | h :: r => ⟨[h, r.prod], t.data, t.device, t.requiresGrad⟩

/-- The observation space collaborator (`env_spec.observation_space`),
specified only through its interface: `flatten` canonicalizes one
observation, `flatten_n` canonicalizes a batch.  Both return numpy
arrays. -/
structure ObsSpace where
  flatten : PyVal → Arr
  flatten_n : PyVal → Arr

/-- Execution-mode tag carried by `PolicyInput`. -/
inductive PolicyMode where
  | ROLLOUT
  | TRAIN
deriving DecidableEq, Repr

/-- The sole argument contract into the model's forward computation. -/
structure PolicyInput where
  mode : PolicyMode
  observations : Tens
deriving DecidableEq, Repr

/-- An action distribution: opaque except for the capability of producing a
sample.  The `Nat` argument stands for the sampler's randomness source. -/
structure Dist where
  sample : Nat → Except Err Tens

/-- The trainable model collaborator: `forward` maps a `PolicyInput` to a
distribution plus a mapping of auxiliary named tensors, or raises. -/
structure Model where
  forward : PolicyInput → Except Err (Dist × List (String × Tens))

/-- A stochastic policy: its observation space, the device targeted by
`as_torch`, and its model. -/
structure Policy where
  space : ObsSpace
  device : Device
  model : Model

/-- `as_torch` conversion inside the no-grad block: a tensor passes through
unchanged, a numpy array is materialized on the policy's device with no
grad; anything else raises. -/
def toTensor (dev : Device) (v : PyVal) : Except Err Tens :=
  match v with
  | .tens t => .ok t
  | .arr a => .ok ⟨a.shape, a.data, dev, false⟩
  | _ => .error .typeError

/-- Normalization branch of `get_action` (source lines 30-38): raw
observations are flattened by the space, numpy arrays of rank above 1 are
flattened by the space, torch tensors of rank above 1 are flattened by
`torch.flatten`; everything else passes through. -/
def normalizeSingle (S : ObsSpace) (observation : PyVal) : PyVal :=
  if !(isNp observation) && !(isTens observation) then
    .arr (S.flatten observation)
  else
    match observation with
    | .arr a => if a.shape.length > 1 then .arr (S.flatten (.arr a)) else .arr a
    | .tens t => if t.shape.length > 1 then .tens (torchFlattenAll t) else .tens t
    | v => v

/-- A normalization action performed by `get_actions` on its way to a
canonical batch. -/
inductive Step where
  | rawFlattenN
  | stackNp
  | stackTorch
  | rankFlattenN
  | rankFlattenTorch
deriving DecidableEq, Repr

/-- Stacking stage of `get_actions` normalization (source lines 69-74, the
`isinstance(observations, list)` block), instrumented with the stacking
step it performs.  A step is recorded when the corresponding transformation
is entered, so a raising run still reports the step it attempted. -/
def stackStage (obs1 : PyVal) : Except Err PyVal × List Step :=
  match obs1 with
  | .list xs =>
    match pyIndex0 (.list xs) with
    | .error e => (.error e, [])
    | .ok x0 =>
      if isNp x0 then
        match npStack xs with
        | .error e => (.error e, [.stackNp])
        | .ok a => (.ok (.arr a), [.stackNp])
      else if isTens x0 then
        match torchStack xs with
        | .error e => (.error e, [.stackTorch])
        | .ok t => (.ok (.tens t), [.stackTorch])
      else (.ok (.list xs), [])
  | v => (.ok v, [])

/-- Rank-check stage of `get_actions` normalization (source lines 75-81, the
`len(observations[0].shape) > 1` branches), instrumented with the
flattening step it performs. -/
def rankStage (S : ObsSpace) (obs2 : PyVal) : Except Err PyVal × List Step :=
  match pyIndex0 obs2 with
  | .error e => (.error e, [])
  | .ok ob2 =>
    match ob2 with
    | .arr a0 =>
      if a0.shape.length > 1 then (.ok (.arr (S.flatten_n obs2)), [.rankFlattenN])
      else (.ok obs2, [])
    | .tens t0 =>
      if t0.shape.length > 1 then
        match obs2 with
        | .tens t => (.ok (.tens (torchFlattenFrom1 t)), [.rankFlattenTorch])
        | _ => (.error .typeError, [.rankFlattenTorch])
      else (.ok obs2, [])
    | _ => (.ok obs2, [])

/-- Normalization part of `get_actions` (source lines 62-81), instrumented
with the list of normalization steps it applies: first the raw-batch check
on `observations[0]` (lines 62-65), then stacking of plain lists (lines
69-74), then the rank check on the possibly restacked first element (lines
75-81). -/
def normalizeTr (S : ObsSpace) (observations : PyVal) :
    Except Err PyVal × List Step :=
  match pyIndex0 observations with
  | .error e => (.error e, [])
  | .ok ob0 =>
    if !(isNp ob0) && !(isTens ob0) then
      match stackStage (.arr (S.flatten_n observations)) with
      | (.error e, t2) => (.error e, Step.rawFlattenN :: t2)
      | (.ok obs2, t2) =>
        match rankStage S obs2 with
        | (r, t3) => (r, Step.rawFlattenN :: (t2 ++ t3))
    else
      match stackStage observations with
      | (.error e, t2) => (.error e, t2)
      | (.ok obs2, t2) =>
        match rankStage S obs2 with
        | (r, t3) => (r, t2 ++ t3)

/-- Normalization part of `get_actions`: the value computed by
`normalizeTr`. -/
def normalize (S : ObsSpace) (observations : PyVal) : Except Err PyVal :=
  (normalizeTr S observations).1

/-- The steps applied by `get_actions` normalization. -/
def normSteps (S : ObsSpace) (observations : PyVal) : List Step :=
  (normalizeTr S observations).2

/-- `action[0]` / `v[0]` unwrapping in `get_action`; the index-0 slice of a
batch array (its first `shape.tail.prod` entries). -/
def Arr.idx0 (a : Arr) : Except Err Arr :=
  match a.shape with
  | [] => .error .indexError
  | h :: r => if h = 0 then .error .indexError else .ok ⟨r, a.data.take r.prod⟩

/-- The dict comprehension `{k: v.detach().cpu().numpy() for (k, v) in
info.items()}`: detach and host-transfer every info entry in order. -/
def infoNumpy : List (String × Tens) → Except Err (List (String × Arr))
  | [] => .ok []
  | kv :: rest => do
    let a ← ((kv.2.detach).cpu).numpy
    let tl ← infoNumpy rest
    pure ((kv.1, a) :: tl)

/-- The dict comprehension `{k: v[0] for k, v in agent_infos.items()}`:
take index 0 of every info value in order. -/
def infoIdx0 : List (String × Arr) → Except Err (List (String × Arr))
  | [] => .ok []
  | kv :: rest => do
    let a ← kv.2.idx0
    let tl ← infoIdx0 rest
    pure ((kv.1, a) :: tl)

/-- Events of the sampling pipeline, used to express the scoping of the
`torch.no_grad()` block. -/
inductive Ev where
  | enterNoGrad
  | forwardCall (m : PolicyMode)
  | sampleCall
  | exitNoGrad
deriving DecidableEq, Repr

/-- Body of the `torch.no_grad()` block of `get_actions` after the
`as_torch` conversion (source lines 85-90): build the ROLLOUT
`PolicyInput`, run `forward`, sample, and transfer every output to a host
numpy array (`dist.sample().cpu().numpy()` and `v.detach().cpu().numpy()`),
instrumented with the forward-call and sample events it executes. -/
def runModelTr (M : Model) (g : Nat) (t : Tens) :
    Except Err (Arr × List (String × Arr)) × List Ev :=
  match M.forward (PolicyInput.mk PolicyMode.ROLLOUT t) with
  | .error e => (.error e, [.forwardCall PolicyMode.ROLLOUT])
  | .ok (dist, info) =>
    match dist.sample g with
    | .error e => (.error e, [.forwardCall PolicyMode.ROLLOUT, .sampleCall])
    | .ok s =>
      (do
        let act ← (s.cpu).numpy
        let infos ← infoNumpy info
        pure (act, infos),
       [.forwardCall PolicyMode.ROLLOUT, .sampleCall])

/-- Body of the no-grad block: the value computed by `runModelTr`. -/
def runModel (M : Model) (g : Nat) (t : Tens) :
    Except Err (Arr × List (String × Arr)) :=
  (runModelTr M g t).1

/-- `StochasticPolicy.get_actions` (source lines 46-90), instrumented with
an event trace.  The `with torch.no_grad():` block contributes a matched
`enterNoGrad` / `exitNoGrad` pair on every path through the block,
including paths that raise inside it; normalization errors occur before
the block is entered and so produce an empty trace. -/
def get_actionsTr (p : Policy) (g : Nat) (observations : PyVal) :
    Except Err (Arr × List (String × Arr)) × List Ev :=
  match normalize p.space observations with
  | .error e => (.error e, [])
  | .ok w =>
    match toTensor p.device w with
    | .error e => (.error e, [Ev.enterNoGrad, Ev.exitNoGrad])
    | .ok t =>
      match runModelTr p.model g t with
      | (r, evs) => (r, Ev.enterNoGrad :: (evs ++ [Ev.exitNoGrad]))

/-- `StochasticPolicy.get_actions`: the value computed by
`get_actionsTr`. -/
def get_actions (p : Policy) (g : Nat) (observations : PyVal) :
    Except Err (Arr × List (String × Arr)) :=
  (get_actionsTr p g observations).1

/-- `StochasticPolicy.get_action` (source lines 14-44): normalize the single
observation, convert to a tensor, add a leading batch axis, delegate to
`get_actions`, and unwrap index 0 of the action and of every info value. -/
def get_action (p : Policy) (g : Nat) (observation : PyVal) :
    Except Err (Arr × List (String × Arr)) := do
  let w := normalizeSingle p.space observation
  let t0 ← toTensor p.device w
  let t := t0.unsqueeze0
  let (action, agent_infos) ← get_actions p g (.tens t)
  let a0 ← action.idx0
  let infos0 ← infoIdx0 agent_infos
  pure (a0, infos0)

/-- Specification-side normalization, written directly from the spec's
precedence rules (spec section 4.1, first match wins): (1) a batch whose
first element is not a numeric array/tensor is flattened by the observation
space's `flatten_n`; otherwise (3) a plain list of arrays or of tensors is
stacked into one contiguous batch, then (2) if the first element's rank
exceeds 1 the batch is flattened (arrays via `flatten_n`, tensors via the
backend's batch flatten), and (4) otherwise the batch passes through
unchanged. -/
def normalizeSpec (S : ObsSpace) (v : PyVal) : Except Err PyVal := do
  let x0 ← pyIndex0 v
  if !(isNp x0) && !(isTens x0) then
    pure (PyVal.arr (S.flatten_n v))
  else do
    let w ← match v with
      | .list xs =>
        if isNp x0 then do
          let a ← npStack xs
          pure (PyVal.arr a)
        else do
          let t ← torchStack xs
          pure (PyVal.tens t)
      | u => pure u
    let r := match x0 with
      | .arr a0 => a0.shape.length
      | .tens t0 => t0.shape.length
      | _ => 0
    if r > 1 then
      match w with
      | .arr a => pure (PyVal.arr (S.flatten_n (.arr a)))
      | .tens t => pure (PyVal.tens (torchFlattenFrom1 t))
      | _ => Except.error .typeError
    else pure w

/-- A well-behaved observation space: `flatten_n` always returns a
canonical batch, i.e. a rank-2 array with a positive batch dimension. -/
def canonicalSpace (S : ObsSpace) : Prop :=
  ∀ w, ∃ n d, 0 < n ∧ (S.flatten_n w).shape = [n, d]

/-- Kind of the container holding a batch (list, array, tensor, raw). -/
def containerKind : PyVal → Nat
  | .list _ => 0
  | .arr _ => 1
  | .tens _ => 2
  | .raw _ => 3

/-- Type and rank of a batch's first element: `0` for non-numeric values
(with rank 0), `1` for numpy arrays, `2` for torch tensors. -/
def firstClass (v : PyVal) : Except Err (Nat × Nat) := do
  let x0 ← pyIndex0 v
  match x0 with
  | .arr a => pure (1, a.shape.length)
  | .tens t => pure (2, t.shape.length)
  | _ => pure (0, 0)

/-- Normalization steps predicted from a batch's container kind and the
type and rank of its first element, for runs that do not raise under a
canonical observation space. -/
def stepsOf (c : Nat) (fc : Nat × Nat) : List Step :=
  if fc.1 = 0 then [.rawFlattenN]
  else if fc.1 = 1 then
    (if c = 0 then [Step.stackNp] else []) ++
    (if fc.2 > 1 then [Step.rankFlattenN] else [])
  else
    (if c = 0 then [Step.stackTorch] else []) ++
    (if fc.2 > 1 then [Step.rankFlattenTorch] else [])

/-- Number of elements of a batch value: length of a list, leading
dimension of an array or tensor. -/
def pyLen : PyVal → Option Nat
  | .list xs => some xs.length
  | .arr a => a.shape.head?
  | .tens t => t.shape.head?
  | .raw _ => none

/-- Unsqueeze on arrays: the result of stacking a batch of one. -/
def unsqArr (a : Arr) : Arr := ⟨1 :: a.shape, a.data⟩

/-- A concrete observation space used to instantiate theorems: `flatten`
maps every observation to the vector `[5, 6]`, `flatten_n` to the
one-element batch of it. -/
def wSpace : ObsSpace := ⟨fun _ => ⟨[2], [5, 6]⟩, fun _ => ⟨[1, 2], [5, 6]⟩⟩

/-- A concrete observation space whose `flatten_n` output length matches the
input batch length. -/
def wSpaceN : ObsSpace :=
  ⟨fun _ => ⟨[2], [5, 6]⟩,
   fun u => match pyLen u with
     | some n => ⟨[n, 1], List.replicate n 0⟩
     | none => ⟨[1, 1], [0]⟩⟩

/-- A concrete model used to instantiate theorems: its distribution ignores
the randomness source, its sample lives on the accelerator, and its info
tensor is still graph-attached. -/
def wModel : Model :=
  ⟨fun _ => .ok (⟨fun _ => .ok ⟨[1, 2], [7, 8], .cuda, false⟩⟩,
    [("mean", ⟨[1, 2], [1, 2], .cuda, true⟩)])⟩

/-- A concrete model whose forward raises. -/
def wModelErr : Model := ⟨fun _ => .error (.user 7)⟩

/-- A concrete model whose sampling raises. -/
def wModelSampleErr : Model :=
  ⟨fun _ => .ok (⟨fun _ => .error (.user 9)⟩, [])⟩

/-- A concrete policy built from `wSpace` and `wModel`. -/
def wPolicy : Policy := ⟨wSpace, .cuda, wModel⟩

/-- A concrete policy whose forward raises. -/
def wPolicyErr : Policy := ⟨wSpace, .cpu, wModelErr⟩

/-- A concrete policy whose sampling raises. -/
def wPolicySampleErr : Policy := ⟨wSpace, .cpu, wModelSampleErr⟩

/-- A concrete model returning a batch-of-two sample and batch-of-two info
tensors. -/
def wModel2 : Model :=
  ⟨fun _ => .ok (⟨fun _ => .ok ⟨[2, 3], [1, 2, 3, 4, 5, 6], .cuda, false⟩⟩,
    [("mean", ⟨[2, 1], [1, 2], .cuda, true⟩)])⟩

/-- A concrete policy built from `wSpaceN` and `wModel2`. -/
def wPolicy2 : Policy := ⟨wSpaceN, .cuda, wModel2⟩

/-- A concrete observation space whose `flatten` is distinguishable from a
plain reshape: it maps every observation to the vector `[99]`. -/
def wSpaceCex : ObsSpace := ⟨fun _ => ⟨[1], [99]⟩, fun _ => ⟨[1, 1], [99]⟩⟩

@[simp]
theorem exceptBind_ok {α β : Type} (a : α) (f : α → Except Err β) :
    (Except.ok a >>= f) = f a := rfl

@[simp]
theorem exceptBind_error {α β : Type} (e : Err) (f : α → Except Err β) :
    ((Except.error e : Except Err α) >>= f) = .error e := rfl

@[simp]
theorem exceptPure {α : Type} (a : α) : (pure a : Except Err α) = .ok a := rfl

@[simp]
theorem fst_ite {α β : Type} {c : Prop} [Decidable c] (x y : α × β) :
    (if c then x else y).1 = if c then x.1 else y.1 := by
  split <;> rfl

@[simp]
theorem snd_ite {α β : Type} {c : Prop} [Decidable c] (x y : α × β) :
    (if c then x else y).2 = if c then x.2 else y.2 := by
  split <;> rfl

theorem exceptBind_congr {α β : Type} (x : Except Err α) (f h : α → Except Err β)
    (H : ∀ a, f a = h a) : (x >>= f) = (x >>= h) := by
  cases x <;> simp [H]

/-- The detach-then-host-transfer of the info map always succeeds and strips
device and grad information from every entry. -/
theorem infoNumpy_ok (info : List (String × Tens)) :
    infoNumpy info =
      Except.ok (info.map (fun kv => (kv.1, Arr.mk kv.2.shape kv.2.data))) := by
  induction info with
  | nil => rfl
  | cons kv rest ih => simp [infoNumpy, Tens.detach, Tens.cpu, Tens.numpy, ih]

/-- Success inversion for `get_actions`: a successful call factors through
normalization, tensor conversion, a ROLLOUT forward call, sampling (whose
result carries no grad, or the host transfer would have raised), and pure
host transfer of all outputs, whatever device and grad state the model's
tensors had. -/
theorem get_actions_ok_inv {p : Policy} {g : Nat} {v : PyVal}
    {acts : Arr} {infos : List (String × Arr)}
    (hok : get_actions p g v = .ok (acts, infos)) :
    ∃ w t dist info s,
      normalize p.space v = .ok w ∧
      toTensor p.device w = .ok t ∧
      p.model.forward (PolicyInput.mk PolicyMode.ROLLOUT t) = .ok (dist, info) ∧
      dist.sample g = .ok s ∧
      s.requiresGrad = false ∧
      acts = Arr.mk s.shape s.data ∧
      infos = info.map (fun kv => (kv.1, Arr.mk kv.2.shape kv.2.data)) := by
  unfold get_actions get_actionsTr at hok
  cases hn : normalize p.space v with
  | error e => simp only [hn] at hok; simp at hok
  | ok w =>
    simp only [hn] at hok
    cases ht : toTensor p.device w with
    | error e => simp only [ht] at hok; simp at hok
    | ok t =>
      simp only [ht] at hok
      unfold runModelTr at hok
      cases hf : p.model.forward (PolicyInput.mk PolicyMode.ROLLOUT t) with
      | error e => simp only [hf] at hok; simp at hok
      | ok di =>
        obtain ⟨dist, info⟩ := di
        simp only [hf] at hok
        cases hs : dist.sample g with
        | error e => simp only [hs] at hok; simp at hok
        | ok s =>
          simp only [hs] at hok
          simp only [Tens.cpu, Tens.numpy] at hok
          by_cases hg : s.requiresGrad = true
          · simp [hg] at hok
          · simp only [hg, Bool.false_eq_true, if_false, ne_eq, not_true_eq_false,
              not_false_eq_true, reduceIte, infoNumpy_ok, exceptBind_ok,
              exceptPure] at hok
            obtain ⟨h1, h2⟩ := Prod.mk.inj (Except.ok.inj hok)
            exact ⟨w, t, dist, info, s, rfl, ht, hf, hs,
              Bool.eq_false_iff.mpr hg, h1.symm, h2.symm⟩

/-- C10: an empty batch (an empty list or an array with leading dimension
0) makes `get_actions` raise `IndexError` at the initial first-element
inspection: no normalization step is recorded, the no-grad block is never
entered and no forward computation happens, and no result is returned. -/
theorem empty_batch_raises (p : Policy) (g : Nat) (s : List Nat) (d : List Int) :
    get_actions p g (.list []) = .error .indexError ∧
    normSteps p.space (.list []) = [] ∧
    (get_actionsTr p g (.list [])).2 = [] ∧
    get_actions p g (.arr ⟨0 :: s, d⟩) = .error .indexError ∧
    normSteps p.space (.arr ⟨0 :: s, d⟩) = [] ∧
    (get_actionsTr p g (.arr ⟨0 :: s, d⟩)).2 = [] := by
  refine ⟨?_, ?_, ?_, ?_, ?_, ?_⟩ <;>
    simp [get_actions, get_actionsTr, normalize, normSteps, normalizeTr, pyIndex0]

/-- C9: the forward pass and the sampling happen inside the scoped no-grad
block: whenever the block is entered, entering it is the first event and
its exit is the last event on every path, including raising ones; every
forward call happens strictly inside the block; and every forward call
receives a `PolicyInput` tagged with the ROLLOUT execution mode. -/
theorem no_grad_scoping (p : Policy) (g : Nat) (v : PyVal) :
    (∀ m, Ev.forwardCall m ∈ (get_actionsTr p g v).2 → m = PolicyMode.ROLLOUT) ∧
    (Ev.enterNoGrad ∈ (get_actionsTr p g v).2 →
      (get_actionsTr p g v).2.head? = some Ev.enterNoGrad ∧
      (get_actionsTr p g v).2.getLast? = some Ev.exitNoGrad) ∧
    (∀ m, Ev.forwardCall m ∈ (get_actionsTr p g v).2 →
      Ev.enterNoGrad ∈ (get_actionsTr p g v).2 ∧
      Ev.exitNoGrad ∈ (get_actionsTr p g v).2) := by
  unfold get_actionsTr runModelTr
  cases hn : normalize p.space v with
  | error e => simp
  | ok w =>
    cases ht : toTensor p.device w with
    | error e => simp [ht]
    | ok t =>
      cases hf : p.model.forward (PolicyInput.mk PolicyMode.ROLLOUT t) with
      | error e => simp [ht, hf]
      | ok di =>
        obtain ⟨dist, info⟩ := di
        cases hs : dist.sample g <;> simp [ht, hf, hs]

/-- Forward errors propagate unchanged through `get_actions`. -/
theorem get_actions_fwd_error {p : Policy} {g : Nat} {v w : PyVal} {t : Tens}
    {e : Err} (hw : normalize p.space v = .ok w)
    (ht : toTensor p.device w = .ok t)
    (hf : p.model.forward (PolicyInput.mk PolicyMode.ROLLOUT t) = .error e) :
    get_actions p g v = .error e := by
  unfold get_actions get_actionsTr runModelTr
  simp [hw, ht, hf]

/-- Sampling errors propagate unchanged through `get_actions`. -/
theorem get_actions_sample_error {p : Policy} {g : Nat} {v w : PyVal} {t : Tens}
    {e : Err} {dist : Dist} {info : List (String × Tens)}
    (hw : normalize p.space v = .ok w)
    (ht : toTensor p.device w = .ok t)
    (hf : p.model.forward (PolicyInput.mk PolicyMode.ROLLOUT t) = .ok (dist, info))
    (hs : dist.sample g = .error e) :
    get_actions p g v = .error e := by
  unfold get_actions get_actionsTr runModelTr
  simp [hw, ht, hf, hs]

/-- C6: an error raised by the model's forward computation, or by the
distribution's sample, propagates unchanged through `get_actions` and
through `get_action`, with no recovery, retry, wrapping or fallback; and a
call to either entry point never produces a partially-populated result: it
is either a single error or a fully-formed pair. -/
theorem model_errors_propagate (p : Policy) (g : Nat) (v : PyVal) (e : Err) :
    (∀ w t, normalize p.space v = .ok w → toTensor p.device w = .ok t →
      (p.model.forward (PolicyInput.mk PolicyMode.ROLLOUT t) = .error e →
        get_actions p g v = .error e) ∧
      (∀ dist info,
        p.model.forward (PolicyInput.mk PolicyMode.ROLLOUT t) = .ok (dist, info) →
        dist.sample g = .error e → get_actions p g v = .error e)) ∧
    (∀ t0 w2 t2, toTensor p.device (normalizeSingle p.space v) = .ok t0 →
      normalize p.space (.tens t0.unsqueeze0) = .ok w2 →
      toTensor p.device w2 = .ok t2 →
      (p.model.forward (PolicyInput.mk PolicyMode.ROLLOUT t2) = .error e →
        get_action p g v = .error e) ∧
      (∀ dist info,
        p.model.forward (PolicyInput.mk PolicyMode.ROLLOUT t2) = .ok (dist, info) →
        dist.sample g = .error e → get_action p g v = .error e)) ∧
    ((∃ e2, get_actions p g v = .error e2) ∨
     (∃ acts infos, get_actions p g v = .ok (acts, infos))) ∧
    ((∃ e2, get_action p g v = .error e2) ∨
     (∃ acts infos, get_action p g v = .ok (acts, infos))) := by
  refine ⟨?_, ?_, ?_, ?_⟩
  · intro w t hw ht
    exact ⟨fun hf => get_actions_fwd_error hw ht hf,
      fun dist info hf hs => get_actions_sample_error hw ht hf hs⟩
  · intro t0 w2 t2 ht0 hw2 ht2
    constructor
    · intro hf
      have hin : get_actions p g (.tens t0.unsqueeze0) = .error e :=
        get_actions_fwd_error hw2 ht2 hf
      unfold get_action
      dsimp only
      rw [ht0]
      simp only [exceptBind_ok]
      simp [hin]
    · intro dist info hf hs
      have hin : get_actions p g (.tens t0.unsqueeze0) = .error e :=
        get_actions_sample_error hw2 ht2 hf hs
      unfold get_action
      dsimp only
      rw [ht0]
      simp only [exceptBind_ok]
      simp [hin]
  · cases hr : get_actions p g v with
    | error e2 => exact Or.inl ⟨e2, rfl⟩
    | ok r =>
      obtain ⟨a, i⟩ := r
      exact Or.inr ⟨a, i, rfl⟩
  · cases hr : get_action p g v with
    | error e2 => exact Or.inl ⟨e2, rfl⟩
    | ok r =>
      obtain ⟨a, i⟩ := r
      exact Or.inr ⟨a, i, rfl⟩

/-- C8: with a deterministic model stub (the model's `forward` is a pure
function of its input, and the returned distribution's sample does not
depend on the randomness source), two calls to `get_actions` or
`get_action` with the same input produce identical outputs. -/
theorem deterministic_stub_idempotent (p : Policy) (v : PyVal) (g g2 : Nat)
    (hdet : ∀ pin dist info, p.model.forward pin = .ok (dist, info) →
      ∀ a b : Nat, dist.sample a = dist.sample b) :
    get_actions p g v = get_actions p g2 v ∧
    get_action p g v = get_action p g2 v := by
  have hrm : ∀ t, runModelTr p.model g t = runModelTr p.model g2 t := by
    intro t
    unfold runModelTr
    cases hf : p.model.forward (PolicyInput.mk PolicyMode.ROLLOUT t) with
    | error e => rfl
    | ok di =>
      obtain ⟨dist, info⟩ := di
      simp [hdet _ _ _ hf g g2]
  have hga : ∀ u, get_actions p g u = get_actions p g2 u := by
    intro u
    unfold get_actions get_actionsTr
    cases hn : normalize p.space u with
    | error e => rfl
    | ok w =>
      cases ht : toTensor p.device w with
      | error e => simp [ht]
      | ok t => simp [ht, hrm t]
  refine ⟨hga v, ?_⟩
  unfold get_action
  cases ht0 : toTensor p.device (normalizeSingle p.space v) with
  | error e => simp [ht0]
  | ok t0 =>
    simp only [ht0, exceptBind_ok]
    rw [hga (.tens t0.unsqueeze0)]

/-- C5: every value returned by `get_action` and `get_actions` (the action
and every info entry) is a plain host numpy array carrying no device or
grad state: a successful result consists exactly of the device- and
grad-stripped copies (or, for `get_action`, their index-0 slices) of the
tensors the model produced, whatever compute device they lived on and
whether or not the info tensors were still graph-attached. -/
theorem outputs_host_detached (p : Policy) (g : Nat) (v : PyVal)
    (acts acts2 : Arr) (infos infos2 : List (String × Arr)) :
    (get_actions p g v = .ok (acts, infos) →
      ∃ t dist info s,
        p.model.forward (PolicyInput.mk PolicyMode.ROLLOUT t) = .ok (dist, info) ∧
        dist.sample g = .ok s ∧
        s.requiresGrad = false ∧
        acts = Arr.mk s.shape s.data ∧
        infos = info.map (fun kv => (kv.1, Arr.mk kv.2.shape kv.2.data))) ∧
    (get_action p g v = .ok (acts2, infos2) →
      ∃ t dist info s,
        p.model.forward (PolicyInput.mk PolicyMode.ROLLOUT t) = .ok (dist, info) ∧
        dist.sample g = .ok s ∧
        s.requiresGrad = false ∧
        Except.ok acts2 = (Arr.mk s.shape s.data).idx0 ∧
        Except.ok infos2 =
          infoIdx0 (info.map (fun kv => (kv.1, Arr.mk kv.2.shape kv.2.data)))) := by
  constructor
  · intro hok
    obtain ⟨w, t, dist, info, s, _, _, hf, hs, hg, ha, hi⟩ := get_actions_ok_inv hok
    exact ⟨t, dist, info, s, hf, hs, hg, ha, hi⟩
  · intro hok
    unfold get_action at hok
    cases ht0 : toTensor p.device (normalizeSingle p.space v) with
    | error e => simp only [ht0] at hok; simp at hok
    | ok t0 =>
      simp only [ht0, exceptBind_ok] at hok
      cases hga : get_actions p g (.tens t0.unsqueeze0) with
      | error e => simp only [hga] at hok; simp at hok
      | ok r =>
        obtain ⟨action, agent_infos⟩ := r
        simp only [hga, exceptBind_ok] at hok
        obtain ⟨w, t, dist, info, s, _, _, hf, hs, hg, ha, hi⟩ :=
          get_actions_ok_inv hga
        cases hidx : action.idx0 with
        | error e => simp only [hidx] at hok; simp at hok
        | ok a0 =>
          simp only [hidx, exceptBind_ok] at hok
          cases hinf : infoIdx0 agent_infos with
          | error e => simp only [hinf] at hok; simp at hok
          | ok infos0 =>
            simp only [hinf, exceptBind_ok, exceptPure] at hok
            obtain ⟨h1, h2⟩ := Prod.mk.inj (Except.ok.inj hok)
            refine ⟨t, dist, info, s, hf, hs, hg, ?_, ?_⟩
            · rw [← h1, ← ha, hidx]
            · rw [← h2, ← hi, hinf]

/-- A successful `np.stack` has leading dimension equal to the list
length. -/
theorem npStack_ok_len {xs : List PyVal} {a : Arr} (h : npStack xs = .ok a) :
    a.shape.head? = some xs.length := by
  cases xs with
  | nil => simp [npStack] at h
  | cons x rest =>
    cases x with
    | raw r => simp [npStack] at h
    | tens t => simp [npStack] at h
    | list l => simp [npStack] at h
    | arr a0 =>
      simp only [npStack] at h
      split at h
      · cases h; rfl
      · simp at h

/-- A successful `torch.stack` has leading dimension equal to the list
length. -/
theorem torchStack_ok_len {xs : List PyVal} {t : Tens} (h : torchStack xs = .ok t) :
    t.shape.head? = some xs.length := by
  cases xs with
  | nil => simp [torchStack] at h
  | cons x rest =>
    cases x with
    | raw r => simp [torchStack] at h
    | arr a => simp [torchStack] at h
    | list l => simp [torchStack] at h
    | tens t0 =>
      simp only [torchStack] at h
      split at h
      · cases h; rfl
      · simp at h

/-- The stacking stage preserves the number of batch elements. -/
theorem stackStage_ok_len {u u2 : PyVal} {tr : List Step}
    (h : stackStage u = (.ok u2, tr)) : pyLen u2 = pyLen u := by
  cases u with
  | raw r =>
    obtain ⟨h1, _⟩ := Prod.mk.inj h
    cases Except.ok.inj h1; rfl
  | arr a =>
    obtain ⟨h1, _⟩ := Prod.mk.inj h
    cases Except.ok.inj h1; rfl
  | tens t =>
    obtain ⟨h1, _⟩ := Prod.mk.inj h
    cases Except.ok.inj h1; rfl
  | list xs =>
    simp only [stackStage] at h
    cases h0 : pyIndex0 (.list xs) with
    | error e => rw [h0] at h; simp at h
    | ok x0 =>
      rw [h0] at h
      by_cases hnp : isNp x0 = true
      · simp only [hnp, if_true] at h
        cases hst : npStack xs with
        | error e => rw [hst] at h; simp at h
        | ok a =>
          rw [hst] at h
          obtain ⟨h1, _⟩ := Prod.mk.inj h
          cases Except.ok.inj h1
          simp [pyLen, npStack_ok_len hst]
      · by_cases hts : isTens x0 = true
        · simp only [hnp, hts, if_true, if_false, Bool.false_eq_true] at h
          cases hst : torchStack xs with
          | error e => rw [hst] at h; simp at h
          | ok t =>
            rw [hst] at h
            obtain ⟨h1, _⟩ := Prod.mk.inj h
            cases Except.ok.inj h1
            simp [pyLen, torchStack_ok_len hst]
        · simp only [hnp, hts, if_false, Bool.false_eq_true] at h
          obtain ⟨h1, _⟩ := Prod.mk.inj h
          cases Except.ok.inj h1; rfl

/-- The rank-check stage preserves the number of batch elements, provided
`flatten_n` does. -/
theorem rankStage_ok_len {S : ObsSpace} {N : Nat} {u2 w : PyVal} {tr : List Step}
    (HS : ∀ u n, pyLen u = some n → (S.flatten_n u).shape.head? = some n)
    (hl : pyLen u2 = some N)
    (h : rankStage S u2 = (.ok w, tr)) : pyLen w = some N := by
  cases h0 : pyIndex0 u2 with
  | error e => simp [rankStage, h0] at h
  | ok ob2 =>
    cases ob2 with
    | raw r =>
      simp only [rankStage, h0] at h
      obtain ⟨h1, _⟩ := Prod.mk.inj h
      cases Except.ok.inj h1; exact hl
    | list l =>
      simp only [rankStage, h0] at h
      obtain ⟨h1, _⟩ := Prod.mk.inj h
      cases Except.ok.inj h1; exact hl
    | arr a0 =>
      simp only [rankStage, h0] at h
      split at h
      · obtain ⟨h1, _⟩ := Prod.mk.inj h
        cases Except.ok.inj h1
        simp [pyLen, HS u2 N hl]
      · obtain ⟨h1, _⟩ := Prod.mk.inj h
        cases Except.ok.inj h1; exact hl
    | tens t0 =>
      simp only [rankStage, h0] at h
      split at h
      · cases u2 with
        | raw r => simp at h
        | arr a => simp at h
        | list l => simp at h
        | tens t =>
          simp only [Prod.mk.injEq] at h
          obtain ⟨h1, _⟩ := h
          cases Except.ok.inj h1
          cases ht : t.shape with
          | nil => simp only [torchFlattenFrom1, ht]; exact hl
          | cons hd tl =>
            simp only [pyLen, ht, List.head?] at hl
            simpa [pyLen, torchFlattenFrom1, ht] using hl
      · obtain ⟨h1, _⟩ := Prod.mk.inj h
        cases Except.ok.inj h1; exact hl

/-- Successful normalization preserves the number of batch elements,
provided `flatten_n` does. -/
theorem normalize_ok_len {S : ObsSpace} {v : PyVal} {N : Nat} {w : PyVal}
    (HS : ∀ u n, pyLen u = some n → (S.flatten_n u).shape.head? = some n)
    (hN : pyLen v = some N) (h : normalize S v = .ok w) : pyLen w = some N := by
  unfold normalize normalizeTr at h
  cases h0 : pyIndex0 v with
  | error e => rw [h0] at h; simp at h
  | ok ob0 =>
    rw [h0] at h
    by_cases hraw : (!(isNp ob0) && !(isTens ob0)) = true
    · simp only [hraw, if_true] at h
      cases hst : stackStage (.arr (S.flatten_n v)) with
      | mk r1 tr1 =>
        cases r1 with
        | error e => simp only [hst] at h; simp at h
        | ok u2 =>
          simp only [hst] at h
          cases hrk : rankStage S u2 with
          | mk r2 tr2 =>
            simp only [hrk] at h
            cases r2 with
            | error e => simp at h
            | ok w2 =>
              cases Except.ok.inj h
              have l1 : pyLen (PyVal.arr (S.flatten_n v)) = some N := by
                simpa [pyLen] using HS v N hN
              exact rankStage_ok_len HS ((stackStage_ok_len hst).trans l1) hrk
    · simp only [hraw, if_false, Bool.false_eq_true] at h
      cases hst : stackStage v with
      | mk r1 tr1 =>
        cases r1 with
        | error e => simp only [hst] at h; simp at h
        | ok u2 =>
          simp only [hst] at h
          cases hrk : rankStage S u2 with
          | mk r2 tr2 =>
            simp only [hrk] at h
            cases r2 with
            | error e => simp at h
            | ok w2 =>
              cases Except.ok.inj h
              exact rankStage_ok_len HS ((stackStage_ok_len hst).trans hN) hrk

/-- C4: assuming the observation space preserves batch length and the
model's outputs have leading dimension `N` whenever fed an `N`-element
batch, `get_actions` on a batch of `N` observations returns an action
array of leading dimension `N` and one info entry per model info key, each
with leading dimension `N`. -/
theorem batch_dim_preserved (p : Policy) (g : Nat) (v : PyVal) (N : Nat)
    (acts : Arr) (infos : List (String × Arr))
    (hN : pyLen v = some N)
    (HS : ∀ u n, pyLen u = some n → (p.space.flatten_n u).shape.head? = some n)
    (hok : get_actions p g v = .ok (acts, infos))
    (hsample : ∀ t dist info s,
      p.model.forward (PolicyInput.mk PolicyMode.ROLLOUT t) = .ok (dist, info) →
      t.shape.head? = some N → dist.sample g = .ok s → s.shape.head? = some N)
    (hinfo : ∀ t dist info,
      p.model.forward (PolicyInput.mk PolicyMode.ROLLOUT t) = .ok (dist, info) →
      t.shape.head? = some N → ∀ kv ∈ info, kv.2.shape.head? = some N) :
    acts.shape.head? = some N ∧
    (∀ kv ∈ infos, kv.2.shape.head? = some N) ∧
    (∃ t dist info s,
      p.model.forward (PolicyInput.mk PolicyMode.ROLLOUT t) = .ok (dist, info) ∧
      dist.sample g = .ok s ∧
      infos.map Prod.fst = info.map Prod.fst) := by
  obtain ⟨w, t, dist, info, s, hw, ht, hf, hs, _, ha, hi⟩ := get_actions_ok_inv hok
  have hwl : pyLen w = some N := normalize_ok_len HS hN hw
  have htN : t.shape.head? = some N := by
    cases w with
    | raw r => simp [toTensor] at ht
    | list l => simp [toTensor] at ht
    | arr a =>
      cases Except.ok.inj ht
      simpa [pyLen] using hwl
    | tens tt =>
      cases Except.ok.inj ht
      simpa [pyLen] using hwl
  refine ⟨?_, ?_, t, dist, info, s, hf, hs, ?_⟩
  · rw [ha]
    exact hsample t dist info s hf htN hs
  · intro kv hkv
    rw [hi] at hkv
    obtain ⟨kv0, hmem, hkv0⟩ := List.mem_map.mp hkv
    have := hinfo t dist info hf htN kv0 hmem
    rw [← hkv0]
    simpa using this
  · rw [hi]
    simp [List.map_map, Function.comp]

theorem deterministic_stub_idempotent_witness :
    get_actions wPolicy 0 (.list [.raw 3]) = get_actions wPolicy 5 (.list [.raw 3]) ∧
    get_action wPolicy 0 (.list [.raw 3]) = get_action wPolicy 5 (.list [.raw 3]) :=
  deterministic_stub_idempotent wPolicy (.list [.raw 3]) 0 5
    (by intro pin dist info h a b; cases h; rfl)

theorem model_errors_propagate_witness :
    get_actions wPolicyErr 0 (.arr ⟨[1, 2], [1, 2]⟩) = .error (.user 7) ∧
    get_actions wPolicySampleErr 0 (.arr ⟨[1, 2], [1, 2]⟩) = .error (.user 9) ∧
    get_action wPolicyErr 0 (.arr ⟨[2], [1, 2]⟩) = .error (.user 7) ∧
    get_action wPolicySampleErr 0 (.arr ⟨[2], [1, 2]⟩) = .error (.user 9) :=
  ⟨((model_errors_propagate wPolicyErr 0 (.arr ⟨[1, 2], [1, 2]⟩) (.user 7)).1
      (.arr ⟨[1, 2], [1, 2]⟩) ⟨[1, 2], [1, 2], .cpu, false⟩
      (by decide) (by decide)).1 rfl,
   ((model_errors_propagate wPolicySampleErr 0 (.arr ⟨[1, 2], [1, 2]⟩) (.user 9)).1
      (.arr ⟨[1, 2], [1, 2]⟩) ⟨[1, 2], [1, 2], .cpu, false⟩
      (by decide) (by decide)).2 ⟨fun _ => .error (.user 9)⟩ [] rfl rfl,
   ((model_errors_propagate wPolicyErr 0 (.arr ⟨[2], [1, 2]⟩) (.user 7)).2.1
      ⟨[2], [1, 2], .cpu, false⟩ (.tens ⟨[1, 2], [1, 2], .cpu, false⟩)
      ⟨[1, 2], [1, 2], .cpu, false⟩ (by decide) (by decide) (by decide)).1 rfl,
   ((model_errors_propagate wPolicySampleErr 0 (.arr ⟨[2], [1, 2]⟩) (.user 9)).2.1
      ⟨[2], [1, 2], .cpu, false⟩ (.tens ⟨[1, 2], [1, 2], .cpu, false⟩)
      ⟨[1, 2], [1, 2], .cpu, false⟩ (by decide) (by decide) (by decide)).2
      ⟨fun _ => .error (.user 9)⟩ [] rfl rfl⟩

theorem outputs_host_detached_witness :
    ∃ t dist info s,
      wPolicy.model.forward (PolicyInput.mk PolicyMode.ROLLOUT t) = .ok (dist, info) ∧
      dist.sample 0 = .ok s ∧
      s.requiresGrad = false ∧
      Arr.mk [1, 2] [7, 8] = Arr.mk s.shape s.data ∧
      [("mean", Arr.mk [1, 2] [1, 2])] =
        info.map (fun kv => (kv.1, Arr.mk kv.2.shape kv.2.data)) :=
  (outputs_host_detached wPolicy 0 (.list [.raw 3]) ⟨[1, 2], [7, 8]⟩ ⟨[], []⟩
    [("mean", ⟨[1, 2], [1, 2]⟩)] []).1 (by decide)

theorem batch_dim_preserved_witness :
    (Arr.mk [2, 3] [1, 2, 3, 4, 5, 6]).shape.head? = some 2 ∧
    (∀ kv ∈ [("mean", Arr.mk [2, 1] [1, 2])], kv.2.shape.head? = some 2) ∧
    (∃ t dist info s,
      wPolicy2.model.forward (PolicyInput.mk PolicyMode.ROLLOUT t) = .ok (dist, info) ∧
      dist.sample 0 = .ok s ∧
      ([("mean", Arr.mk [2, 1] [1, 2])].map Prod.fst = info.map Prod.fst)) :=
  batch_dim_preserved wPolicy2 0 (.list [.raw 1, .raw 2]) 2
    ⟨[2, 3], [1, 2, 3, 4, 5, 6]⟩ [("mean", ⟨[2, 1], [1, 2]⟩)]
    (by decide)
    (by
      intro u n h
      show (wSpaceN.flatten_n u).shape.head? = some n
      unfold wSpaceN
      simp [h])
    (by decide)
    (by intro t dist info s hf htn hs; cases hf; cases hs; rfl)
    (by
      intro t dist info hf htn kv hkv
      cases hf
      cases hkv with
      | head => rfl
      | tail _ h => cases h)

/-- C2 counterexample: for a rank-2 torch tensor, `get_action`
normalization does not apply the observation space's `flatten` (the
transform used for raw observations); it applies the backend's
`torch.flatten`, whose result differs from the space's transform both as a
value and in shape. -/
theorem tensor_not_flattened_by_space :
    normalizeSingle wSpaceCex (.tens ⟨[2, 2], [1, 2, 3, 4], Device.cpu, false⟩) =
      .tens ⟨[4], [1, 2, 3, 4], Device.cpu, false⟩ ∧
    wSpaceCex.flatten (.tens ⟨[2, 2], [1, 2, 3, 4], Device.cpu, false⟩) =
      ⟨[1], [99]⟩ ∧
    normalizeSingle wSpaceCex (.tens ⟨[2, 2], [1, 2, 3, 4], Device.cpu, false⟩) ≠
      .arr (wSpaceCex.flatten (.tens ⟨[2, 2], [1, 2, 3, 4], Device.cpu, false⟩)) ∧
    normalizeSingle wSpaceCex (.tens ⟨[2, 2], [1, 2, 3, 4], Device.cpu, false⟩) ≠
      .tens ⟨(wSpaceCex.flatten (.tens ⟨[2, 2], [1, 2, 3, 4], Device.cpu, false⟩)).shape,
             (wSpaceCex.flatten (.tens ⟨[2, 2], [1, 2, 3, 4], Device.cpu, false⟩)).data,
             Device.cpu, false⟩ := by
  decide

/-- C2 amended: a numpy array whose rank exceeds the canonical flat rank is
flattened via the observation space's canonical transform (`flatten` for a
single observation, `flatten_n` for a batch whose first element has rank
above 1), the same transform used for raw observations; a torch tensor
with excess rank is instead flattened by the tensor backend
(`torch.flatten` over all dimensions for a single observation,
`torch.flatten(·, start_dim=1)` for a batch), independently of the
observation space. -/
theorem rank_flattening_transforms (S : ObsSpace) (a : Arr) (t : Tens)
    (ab : Arr) (tb : Tens) (n m : Nat) (s r : List Nat)
    (ha : a.shape.length > 1) (ht : t.shape.length > 1)
    (hab : ab.shape = n :: s) (hn : n ≠ 0) (hs : s.length > 1)
    (htb : tb.shape = m :: r) (hm : m ≠ 0) (hr : r.length > 1) :
    normalizeSingle S (.arr a) = .arr (S.flatten (.arr a)) ∧
    normalizeSingle S (.tens t) = .tens (torchFlattenAll t) ∧
    normalize S (.arr ab) = .ok (.arr (S.flatten_n (.arr ab))) ∧
    normalize S (.tens tb) = .ok (.tens (torchFlattenFrom1 tb)) := by
  have hsne : s ≠ [] := by
    intro h; rw [h] at hs; simp at hs
  refine ⟨?_, ?_, ?_, ?_⟩
  · simp [normalizeSingle, isNp, isTens, ha]
  · simp [normalizeSingle, isNp, isTens, ht]
  · simp [normalize, normalizeTr, stackStage, rankStage, pyIndex0, hab, hn,
      hsne, isNp, isTens, hs]
  · simp [normalize, normalizeTr, stackStage, rankStage, pyIndex0, htb, hm,
      isNp, isTens, hr]

theorem rank_flattening_transforms_witness :
    normalizeSingle wSpace (.arr ⟨[2, 2], [1, 2, 3, 4]⟩) =
      .arr (wSpace.flatten (.arr ⟨[2, 2], [1, 2, 3, 4]⟩)) ∧
    normalizeSingle wSpace (.tens ⟨[2, 2], [1, 2, 3, 4], Device.cpu, false⟩) =
      .tens (torchFlattenAll ⟨[2, 2], [1, 2, 3, 4], Device.cpu, false⟩) ∧
    normalize wSpace (.arr ⟨[1, 2, 2], [1, 2, 3, 4]⟩) =
      .ok (.arr (wSpace.flatten_n (.arr ⟨[1, 2, 2], [1, 2, 3, 4]⟩))) ∧
    normalize wSpace (.tens ⟨[1, 2, 2], [1, 2, 3, 4], Device.cpu, false⟩) =
      .ok (.tens (torchFlattenFrom1 ⟨[1, 2, 2], [1, 2, 3, 4], Device.cpu, false⟩)) :=
  rank_flattening_transforms wSpace ⟨[2, 2], [1, 2, 3, 4]⟩
    ⟨[2, 2], [1, 2, 3, 4], Device.cpu, false⟩ ⟨[1, 2, 2], [1, 2, 3, 4]⟩
    ⟨[1, 2, 2], [1, 2, 3, 4], Device.cpu, false⟩ 1 1 [2, 2] [2, 2]
    (by decide) (by decide) rfl (by decide) (by decide) rfl (by decide) (by decide)

/-- Shape of a successful `np.stack`. -/
theorem npStack_ok_shape {a0 : Arr} {rest : List PyVal} {a : Arr}
    (h : npStack (.arr a0 :: rest) = .ok a) :
    a.shape = (rest.length + 1) :: a0.shape := by
  simp only [npStack] at h
  split at h
  · cases h; simp
  · simp at h

/-- Shape of a successful `torch.stack`. -/
theorem torchStack_ok_shape {t0 : Tens} {rest : List PyVal} {t : Tens}
    (h : torchStack (.tens t0 :: rest) = .ok t) :
    t.shape = (rest.length + 1) :: t0.shape := by
  simp only [torchStack] at h
  split at h
  · cases h; simp
  · simp at h

/-- C3: over any observation space whose `flatten_n` returns canonical
rank-2 batches, the normalization performed by `get_actions` coincides
with the specification's precedence rules, first match winning: a batch
whose first element is not numeric is flattened via `flatten_n`; a plain
list of arrays or of tensors is stacked into one contiguous batch before
the rank check; an already canonical rank-1-per-element numeric batch
passes through unchanged. -/
theorem normalize_matches_spec (S : ObsSpace) (v : PyVal)
    (hS : canonicalSpace S) : normalize S v = normalizeSpec S v := by
  cases v with
  | raw r => rfl
  | arr a =>
    cases hsh : a.shape with
    | nil => simp [normalize, normalizeTr, normalizeSpec, pyIndex0, hsh]
    | cons h tl =>
      by_cases hz : h = 0
      · simp [normalize, normalizeTr, normalizeSpec, pyIndex0, hsh, hz]
      · cases htl : tl with
        | nil =>
          obtain ⟨n, d, hn, hb⟩ := hS (.arr a)
          simp [normalize, normalizeTr, normalizeSpec, stackStage, rankStage,
            pyIndex0, hsh, hz, htl, isNp, isTens, hb, hn.ne']
        | cons h2 tl2 =>
          simp [normalize, normalizeTr, normalizeSpec, stackStage, rankStage,
            pyIndex0, hsh, hz, htl, isNp, isTens]
  | tens t =>
    cases hsh : t.shape with
    | nil => simp [normalize, normalizeTr, normalizeSpec, pyIndex0, hsh]
    | cons h r =>
      by_cases hz : h = 0
      · simp [normalize, normalizeTr, normalizeSpec, pyIndex0, hsh, hz]
      · simp [normalize, normalizeTr, normalizeSpec, stackStage, rankStage,
          pyIndex0, hsh, hz, isNp, isTens]
  | list xs =>
    cases xs with
    | nil => rfl
    | cons x rest =>
      cases x with
      | raw r0 =>
        obtain ⟨n, d, hn, hb⟩ := hS (.list (.raw r0 :: rest))
        simp [normalize, normalizeTr, normalizeSpec, stackStage, rankStage,
          pyIndex0, isNp, isTens, hb, hn.ne']
      | list l0 =>
        obtain ⟨n, d, hn, hb⟩ := hS (.list (.list l0 :: rest))
        simp [normalize, normalizeTr, normalizeSpec, stackStage, rankStage,
          pyIndex0, isNp, isTens, hb, hn.ne']
      | arr a0 =>
        cases hst : npStack (.arr a0 :: rest) with
        | error e =>
          simp [normalize, normalizeTr, normalizeSpec, stackStage, rankStage,
            pyIndex0, isNp, isTens, hst]
        | ok a =>
          have hsh := npStack_ok_shape hst
          cases ha0 : a0.shape with
          | nil =>
            simp [normalize, normalizeTr, normalizeSpec, stackStage, rankStage,
              pyIndex0, isNp, isTens, hst, hsh, ha0]
          | cons hh tt =>
            simp [normalize, normalizeTr, normalizeSpec, stackStage, rankStage,
              pyIndex0, isNp, isTens, hst, hsh, ha0]
      | tens t0 =>
        cases hst : torchStack (.tens t0 :: rest) with
        | error e =>
          simp [normalize, normalizeTr, normalizeSpec, stackStage, rankStage,
            pyIndex0, isNp, isTens, hst]
        | ok t =>
          have hsh := torchStack_ok_shape hst
          simp [normalize, normalizeTr, normalizeSpec, stackStage, rankStage,
            pyIndex0, isNp, isTens, hst, hsh]

theorem normalize_matches_spec_witness :
    canonicalSpace wSpace ∧
    normalize wSpace (.list [.raw 3, .raw 4]) =
      normalizeSpec wSpace (.list [.raw 3, .raw 4]) ∧
    normalize wSpace (.list [.tens ⟨[2, 2], [1, 2, 3, 4], .cpu, false⟩]) =
      normalizeSpec wSpace (.list [.tens ⟨[2, 2], [1, 2, 3, 4], .cpu, false⟩]) := by
  have hS : canonicalSpace wSpace := fun _ => ⟨1, 2, Nat.one_pos, rfl⟩
  exact ⟨hS, normalize_matches_spec wSpace (.list [.raw 3, .raw 4]) hS,
    normalize_matches_spec wSpace
      (.list [.tens ⟨[2, 2], [1, 2, 3, 4], .cpu, false⟩]) hS⟩

/-- Over a canonical observation space, the normalization steps of a
non-raising run are a function of the batch's container kind and its first
element's type and rank alone. -/
theorem normSteps_eq_stepsOf {S : ObsSpace} {v : PyVal} {fc : Nat × Nat}
    (hS : canonicalSpace S) (hfc : firstClass v = .ok fc)
    (hok : ∃ w, normalize S v = .ok w) :
    normSteps S v = stepsOf (containerKind v) fc := by
  obtain ⟨w, hw⟩ := hok
  cases v with
  | raw r => simp [firstClass, pyIndex0] at hfc
  | arr a =>
    cases hsh : a.shape with
    | nil => simp [normalize, normalizeTr, pyIndex0, hsh] at hw
    | cons h tl =>
      by_cases hz : h = 0
      · simp [normalize, normalizeTr, pyIndex0, hsh, hz] at hw
      · cases htl : tl with
        | nil =>
          simp [firstClass, pyIndex0, hsh, hz, htl] at hfc
          subst hfc
          obtain ⟨n, d, hn, hb⟩ := hS (.arr a)
          simp [normSteps, normalizeTr, stackStage, rankStage, stepsOf,
            containerKind, pyIndex0, hsh, hz, htl, isNp, isTens, hb, hn.ne']
        | cons h2 tl2 =>
          simp [firstClass, pyIndex0, hsh, hz, htl] at hfc
          subst hfc
          simp [normSteps, normalizeTr, stackStage, rankStage, stepsOf,
            containerKind, pyIndex0, hsh, hz, htl, isNp, isTens]
  | tens t =>
    cases hsh : t.shape with
    | nil => simp [normalize, normalizeTr, pyIndex0, hsh] at hw
    | cons h r =>
      by_cases hz : h = 0
      · simp [normalize, normalizeTr, pyIndex0, hsh, hz] at hw
      · simp [firstClass, pyIndex0, hsh, hz] at hfc
        subst hfc
        simp [normSteps, normalizeTr, stackStage, rankStage, stepsOf,
          containerKind, pyIndex0, hsh, hz, isNp, isTens]
  | list xs =>
    cases xs with
    | nil => simp [firstClass, pyIndex0] at hfc
    | cons x rest =>
      cases x with
      | raw r0 =>
        simp [firstClass, pyIndex0] at hfc
        subst hfc
        obtain ⟨n, d, hn, hb⟩ := hS (.list (.raw r0 :: rest))
        simp [normSteps, normalizeTr, stackStage, rankStage, stepsOf,
          containerKind, pyIndex0, isNp, isTens, hb, hn.ne']
      | list l0 =>
        simp [firstClass, pyIndex0] at hfc
        subst hfc
        obtain ⟨n, d, hn, hb⟩ := hS (.list (.list l0 :: rest))
        simp [normSteps, normalizeTr, stackStage, rankStage, stepsOf,
          containerKind, pyIndex0, isNp, isTens, hb, hn.ne']
      | arr a0 =>
        simp [firstClass, pyIndex0] at hfc
        subst hfc
        cases hst : npStack (.arr a0 :: rest) with
        | error e =>
          simp [normalize, normalizeTr, stackStage, pyIndex0, isNp, isTens,
            hst] at hw
        | ok a =>
          have hsh := npStack_ok_shape hst
          cases ha0 : a0.shape with
          | nil =>
            simp [normSteps, normalizeTr, stackStage, rankStage, stepsOf,
              containerKind, pyIndex0, isNp, isTens, hst, hsh, ha0]
          | cons hh tt =>
            simp [normSteps, normalizeTr, stackStage, rankStage, stepsOf,
              containerKind, pyIndex0, isNp, isTens, hst, hsh, ha0]
      | tens t0 =>
        simp [firstClass, pyIndex0] at hfc
        subst hfc
        cases hst : torchStack (.tens t0 :: rest) with
        | error e =>
          simp [normalize, normalizeTr, stackStage, pyIndex0, isNp, isTens,
            hst] at hw
        | ok t =>
          have hsh := torchStack_ok_shape hst
          simp [normSteps, normalizeTr, stackStage, rankStage, stepsOf,
            containerKind, pyIndex0, isNp, isTens, hst, hsh]

/-- C7 counterexample: two batches whose first elements have identical type
and rank (a numpy array of rank 1) receive different normalization step
sequences: the plain-list batch is stacked, the contiguous array batch is
not, so first-element type and rank alone do not determine the steps. -/
theorem first_element_not_sole_determinant :
    firstClass (.list [.arr ⟨[2], [5, 6]⟩]) =
      firstClass (.arr ⟨[3, 2], [1, 2, 3, 4, 5, 6]⟩) ∧
    normSteps wSpace (.list [.arr ⟨[2], [5, 6]⟩]) ≠
      normSteps wSpace (.arr ⟨[3, 2], [1, 2, 3, 4, 5, 6]⟩) := by
  decide

/-- C7 amended: over a canonical observation space, for any two non-raising
batches of the same container kind whose first elements have the same type
and rank, `get_actions` normalization applies the same sequence of steps,
regardless of the types, ranks or values of the remaining elements. -/
theorem steps_determined_by_container_and_first (S : ObsSpace) (x y : PyVal)
    (fc : Nat × Nat)
    (hS : canonicalSpace S)
    (hc : containerKind x = containerKind y)
    (hfx : firstClass x = .ok fc) (hfy : firstClass y = .ok fc)
    (hokx : ∃ wx, normalize S x = .ok wx)
    (hoky : ∃ wy, normalize S y = .ok wy) :
    normSteps S x = normSteps S y := by
  rw [normSteps_eq_stepsOf hS hfx hokx, hc, normSteps_eq_stepsOf hS hfy hoky]

theorem steps_determined_witness :
    normSteps wSpace (.list [.arr ⟨[2], [5, 6]⟩, .arr ⟨[2], [9, 9]⟩]) =
      normSteps wSpace (.list [.arr ⟨[2], [1, 2]⟩]) :=
  steps_determined_by_container_and_first wSpace
    (.list [.arr ⟨[2], [5, 6]⟩, .arr ⟨[2], [9, 9]⟩])
    (.list [.arr ⟨[2], [1, 2]⟩]) (1, 1)
    (fun _ => ⟨1, 2, Nat.one_pos, rfl⟩) rfl (by decide) (by decide)
    ⟨.arr ⟨[2, 2], [5, 6, 9, 9]⟩, by decide⟩
    ⟨.arr ⟨[1, 2], [1, 2]⟩, by decide⟩

/-- `np.stack` of a batch of one is `unsqueeze`. -/
theorem npStack_singleton (a : Arr) : npStack [.arr a] = .ok (unsqArr a) := by
  simp [npStack, unsqArr]

/-- `torch.stack` of a batch of one is `unsqueeze`. -/
theorem torchStack_singleton (t : Tens) :
    torchStack [.tens t] = .ok t.unsqueeze0 := by
  simp [torchStack, Tens.unsqueeze0]

/-- `get_actions` as a bind chain: normalize, convert, run the model. -/
theorem get_actions_as_bind (p : Policy) (g : Nat) (v : PyVal) :
    get_actions p g v =
      (normalize p.space v >>= toTensor p.device) >>= runModel p.model g := by
  unfold get_actions get_actionsTr runModel
  cases hn : normalize p.space v with
  | error e => rfl
  | ok w =>
    simp only [exceptBind_ok]
    cases ht : toTensor p.device w with
    | error e => simp [ht]
    | ok t => simp only [ht, exceptBind_ok]

/-- Batch-of-one normalization agrees with single-observation
normalization followed by `unsqueeze`, over any observation space whose
`flatten_n` of a singleton stacks `flatten` and whose `flatten` yields
rank-1 arrays. -/
theorem batchOfOne_tensor (S : ObsSpace) (dev : Device) (x : PyVal)
    (H1 : ∀ u, isNp u = false → isTens u = false →
      S.flatten_n (.list [u]) = unsqArr (S.flatten u))
    (H2 : ∀ a : Arr, S.flatten_n (.arr (unsqArr a)) = unsqArr (S.flatten (.arr a)))
    (H3 : ∀ u, (S.flatten u).shape.length = 1) :
    (normalize S (.list [x]) >>= toTensor dev) =
      (toTensor dev (normalizeSingle S x) >>= fun t0 => Except.ok t0.unsqueeze0) := by
  cases x with
  | raw r =>
    obtain ⟨d, hd⟩ := List.length_eq_one.mp (H3 (.raw r))
    simp [normalize, normalizeTr, stackStage, rankStage, pyIndex0, isNp, isTens,
      normalizeSingle, toTensor, H1 (.raw r) rfl rfl, unsqArr, hd, Tens.unsqueeze0]
  | list xs =>
    obtain ⟨d, hd⟩ := List.length_eq_one.mp (H3 (.list xs))
    simp [normalize, normalizeTr, stackStage, rankStage, pyIndex0, isNp, isTens,
      normalizeSingle, toTensor, H1 (.list xs) rfl rfl, unsqArr, hd, Tens.unsqueeze0]
  | arr a =>
    cases hsh : a.shape with
    | nil =>
      simp [normalize, normalizeTr, stackStage, rankStage, pyIndex0, isNp, isTens,
        normalizeSingle, toTensor, npStack_singleton, unsqArr, hsh, Tens.unsqueeze0]
    | cons h tl =>
      by_cases hlen : a.shape.length > 1
      · have hlt : 0 < tl.length := by
          rw [hsh] at hlen; simpa using hlen
        have H2a := H2 a
        simp only [unsqArr] at H2a
        rw [hsh] at H2a
        simp [normalize, normalizeTr, stackStage, rankStage, pyIndex0, isNp, isTens,
          normalizeSingle, toTensor, npStack_singleton, H2a, unsqArr, hsh, hlen,
          hlt, Tens.unsqueeze0]
      · have hlt : tl = [] := by
          rw [hsh] at hlen
          simpa using hlen
        subst hlt
        simp [normalize, normalizeTr, stackStage, rankStage, pyIndex0, isNp, isTens,
          normalizeSingle, toTensor, npStack_singleton, unsqArr, hsh, hlen,
          Tens.unsqueeze0]
  | tens t =>
    by_cases hlen : t.shape.length > 1
    · cases hsh : t.shape with
      | nil => rw [hsh] at hlen; simp at hlen
      | cons h tl =>
        have hlt : 0 < tl.length := by
          rw [hsh] at hlen; simpa using hlen
        simp [normalize, normalizeTr, stackStage, rankStage, pyIndex0, isNp, isTens,
          normalizeSingle, toTensor, torchStack_singleton, unsqArr, hsh, hlen,
          hlt, Tens.unsqueeze0, torchFlattenFrom1, torchFlattenAll]
    · simp [normalize, normalizeTr, stackStage, rankStage, pyIndex0, isNp, isTens,
        normalizeSingle, toTensor, torchStack_singleton, unsqArr, hlen,
        Tens.unsqueeze0]

/-- `get_actions` on an already canonical batch-of-one tensor passes it
straight to the model. -/
theorem get_actions_tens_passthrough (p : Policy) (g : Nat) (t : Tens)
    (r : List Nat) (hsh : t.shape = 1 :: r) (hr : r.length ≤ 1) :
    get_actions p g (.tens t) = runModel p.model g t := by
  have hnot : ¬ (r.length > 1) := not_lt.mpr hr
  have hn : normalize p.space (.tens t) = .ok (.tens t) := by
    simp [normalize, normalizeTr, stackStage, rankStage, pyIndex0, isNp, isTens,
      hsh, hnot]
  rw [get_actions_as_bind, hn]
  simp [toTensor]

/-- The tensor obtained from single-observation normalization has rank at
most 1, over any observation space whose `flatten` yields rank-1
arrays. -/
theorem normalizeSingle_rank {S : ObsSpace} {dev : Device} {x : PyVal}
    {t0 : Tens} (H3 : ∀ u, (S.flatten u).shape.length = 1)
    (h : toTensor dev (normalizeSingle S x) = .ok t0) : t0.shape.length ≤ 1 := by
  cases x with
  | raw r =>
    simp only [normalizeSingle, isNp, isTens, Bool.not_false, Bool.and_self,
      if_true, toTensor] at h
    cases Except.ok.inj h
    exact le_of_eq (H3 (.raw r))
  | list xs =>
    simp only [normalizeSingle, isNp, isTens, Bool.not_false, Bool.and_self,
      if_true, toTensor] at h
    cases Except.ok.inj h
    exact le_of_eq (H3 (.list xs))
  | arr a =>
    by_cases hlen : a.shape.length > 1
    · simp only [normalizeSingle, isNp, isTens, Bool.not_true, Bool.false_and,
        Bool.false_eq_true, if_false, hlen, if_true, toTensor] at h
      cases Except.ok.inj h
      exact le_of_eq (H3 (.arr a))
    · simp only [normalizeSingle, isNp, isTens, Bool.not_true, Bool.false_and,
        Bool.false_eq_true, if_false, hlen, toTensor] at h
      cases Except.ok.inj h
      exact not_lt.mp hlen
  | tens t =>
    by_cases hlen : t.shape.length > 1
    · simp only [normalizeSingle, isNp, isTens, Bool.not_true, Bool.and_false,
        Bool.false_eq_true, if_false, hlen, if_true, toTensor] at h
      cases Except.ok.inj h
      simp [torchFlattenAll]
    · simp only [normalizeSingle, isNp, isTens, Bool.not_true, Bool.and_false,
        Bool.false_eq_true, if_false, hlen, toTensor] at h
      cases Except.ok.inj h
      exact not_lt.mp hlen

/-- C1: for every supported observation encoding `x` (raw structured value,
flat or multi-dimensional numpy array, torch tensor of any rank, or other
non-numeric value), `get_action` returns exactly the result of calling
`get_actions` on the batch-of-one list containing `x` and taking index 0
of the action array and of every info value, over any observation space
whose `flatten_n` of a singleton stacks `flatten` and whose `flatten`
yields rank-1 arrays. -/
theorem get_action_eq_batch_of_one (p : Policy) (g : Nat) (x : PyVal)
    (H1 : ∀ u, isNp u = false → isTens u = false →
      p.space.flatten_n (.list [u]) = unsqArr (p.space.flatten u))
    (H2 : ∀ a : Arr, p.space.flatten_n (.arr (unsqArr a)) =
      unsqArr (p.space.flatten (.arr a)))
    (H3 : ∀ u, (p.space.flatten u).shape.length = 1) :
    get_action p g x = (do
      let (action, agent_infos) ← get_actions p g (.list [x])
      let a0 ← action.idx0
      let infos0 ← infoIdx0 agent_infos
      pure (a0, infos0)) := by
  have hA := batchOfOne_tensor p.space p.device x H1 H2 H3
  rw [get_actions_as_bind, hA]
  unfold get_action
  dsimp only
  cases ht0 : toTensor p.device (normalizeSingle p.space x) with
  | error e => simp
  | ok t0 =>
    simp only [exceptBind_ok]
    rw [get_actions_tens_passthrough p g t0.unsqueeze0 t0.shape rfl
      (normalizeSingle_rank H3 ht0)]

theorem get_action_eq_batch_of_one_witness :
    get_action wPolicy 0 (.tens ⟨[2, 2], [1, 2, 3, 4], .cpu, false⟩) = (do
      let (action, agent_infos) ← get_actions wPolicy 0
        (.list [.tens ⟨[2, 2], [1, 2, 3, 4], .cpu, false⟩])
      let a0 ← action.idx0
      let infos0 ← infoIdx0 agent_infos
      pure (a0, infos0)) :=
  get_action_eq_batch_of_one wPolicy 0 (.tens ⟨[2, 2], [1, 2, 3, 4], .cpu, false⟩)
    (fun _ _ _ => rfl) (fun _ => rfl) (fun _ => rfl)

end StochasticPolicy
